import Mathlib

/-!
Verification of the NGC1846 density-grid and membership-likelihood code.

The development shallowly embeds the two core source files:
* `lib/dens_util.py` — the `Kernel` and `Grid` classes (discrete Gaussian
  kernels and probability densities on evenly spaced grids of observables);
* `calc_cluster.py` — the per-star density evaluation and the profile
  likelihood maximization over the nuisance mixing weight `q`.

Floating-point numbers are modelled as rationals (`ℚ`) wherever the source
computes with arithmetic, comparisons, `floor` and `ceil` only; the Gaussian
weights themselves, which the source obtains from `np.exp`, are modelled with
`Real.exp` over `ℝ`.  Densities on grids are modelled as functions from
multi-indices (`List ℕ`) to `ℚ` together with the per-axis coordinate lists,
which carry the array shape (NumPy broadcasting forces
`len(obs[axis]) == dens.shape[axis]` in every reachable call).
-/

namespace NGC1846

/-! ### Kernel (`dens_util.Kernel.__init__`)

`n = np.ceil(nsig * sigma / ds).astype(int) * ds`
`x = np.linspace(-n, n, 2 * n + 1)`  (the integers `-n .. n`)
`y = np.exp(-0.5 * (x/sigma)**2)` ; `self.y = y / np.sum(y)`. -/

/-- Half-width of the kernel: `np.ceil(nsig * sigma / ds).astype(int) * ds`. -/
def kernelN (sigma nsig : ℚ) (ds : ℤ) : ℤ := ⌈nsig * sigma / (ds : ℚ)⌉ * ds

/-- Unnormalized kernel ordinate at array index `i` (abscissa `-n + i`):
`np.exp(-0.5 * (x/sigma)**2)`. -/
noncomputable def kernelY (sigma : ℚ) (n : ℤ) (i : ℕ) : ℝ :=
  Real.exp (-(1/2) * ((((i : ℝ) - (n : ℝ)) / (sigma : ℝ)))^2)

/-- Source `np.sum(y)` over the `2n+1` abscissae of `np.linspace(-n, n, 2n+1)`. -/
noncomputable def kernelT (sigma : ℚ) (n : ℤ) : ℝ :=
  ∑ i ∈ Finset.range (2 * n + 1).toNat, kernelY sigma n i

/-- Normalized kernel weight at array index `i`: `y / np.sum(y)`. -/
noncomputable def kernelW (sigma : ℚ) (n : ℤ) (i : ℕ) : ℝ :=
  kernelY sigma n i / kernelT sigma n

/-- Source `Kernel.__init__`: the only failure the constructor can produce is the
`ValueError` that `np.linspace` raises when its sample count `2n+1` is
negative; there is no parameter validation of `sigma` anywhere in the body.
On success the constructed object holds the half-width `n` and the
normalized weight vector. -/
noncomputable def kernelInit (sigma nsig : ℚ) (ds : ℤ) : Option (ℤ × (ℕ → ℝ)) :=
  let n := kernelN sigma nsig ds
  if n < 0 then none else some (n, kernelW sigma n)

/-- For `sigma > 0`, `nsig ≥ 1`, `ds ≥ 1` the half-width is positive. -/
theorem kernelN_pos {sigma nsig : ℚ} {ds : ℤ} (hs : 0 < sigma) (hn : 1 ≤ nsig)
    (hd : 1 ≤ ds) : 1 ≤ kernelN sigma nsig ds := by
  have hdQ : (1 : ℚ) ≤ (ds : ℚ) := by exact_mod_cast hd
  have hq : 0 < nsig * sigma / (ds : ℚ) := by positivity
  have hc : 1 ≤ ⌈nsig * sigma / (ds : ℚ)⌉ := by
    have := Int.ceil_pos.mpr hq
    omega
  calc (1 : ℤ) = 1 * 1 := by ring
    _ ≤ ⌈nsig * sigma / (ds : ℚ)⌉ * ds := by
        exact mul_le_mul hc hd (by norm_num) (by omega)

/-- Positivity of the kernel normalizer `np.sum(y)` for a nonnegative half-width. -/
theorem kernelT_pos (sigma : ℚ) {n : ℤ} (hn : 0 ≤ n) : 0 < kernelT sigma n := by
  unfold kernelT
  apply Finset.sum_pos
  · intro i _
    exact Real.exp_pos _
  · refine Finset.nonempty_range_iff.mpr ?_
    omega

/-- C4. For every `sigma > 0`, `nsig ≥ 1` and integer `ds ≥ 1`, `Kernel.__init__`
succeeds and the constructed kernel has half-width
`n = ds * ceil(nsig * sigma / ds)` (a multiple of `ds`); its weight vector has
exactly `2n+1` entries, the entries are symmetric (`w i = w (2n - i)`), and
they sum to `1` (exactly, in the real-number model). -/
theorem kernel_halfwidth_symm_sum_one (sigma nsig : ℚ) (ds : ℤ)
    (hs : 0 < sigma) (hn : 1 ≤ nsig) (hd : 1 ≤ ds) :
    kernelInit sigma nsig ds =
      some (kernelN sigma nsig ds, kernelW sigma (kernelN sigma nsig ds)) ∧
    kernelN sigma nsig ds = ds * ⌈nsig * sigma / (ds : ℚ)⌉ ∧
    (∃ k : ℤ, kernelN sigma nsig ds = ds * k) ∧
    (2 * kernelN sigma nsig ds + 1).toNat = 2 * (kernelN sigma nsig ds).toNat + 1 ∧
    (∀ i : ℕ, i ≤ 2 * (kernelN sigma nsig ds).toNat →
      kernelW sigma (kernelN sigma nsig ds) i =
      kernelW sigma (kernelN sigma nsig ds) (2 * (kernelN sigma nsig ds).toNat - i)) ∧
    (∑ i ∈ Finset.range (2 * kernelN sigma nsig ds + 1).toNat,
        kernelW sigma (kernelN sigma nsig ds) i) = 1 := by
  have h1 : 1 ≤ kernelN sigma nsig ds := kernelN_pos hs hn hd
  set n := kernelN sigma nsig ds with hnraw
  have h0 : 0 ≤ n := by omega
  have hcast : ((n.toNat : ℤ) : ℝ) = (n : ℝ) := by
    exact_mod_cast congrArg (fun z : ℤ => (z : ℝ)) (Int.toNat_of_nonneg h0)
  refine ⟨?_, ?_, ⟨⌈nsig * sigma / (ds : ℚ)⌉, ?_⟩, ?_, ?_, ?_⟩
  · unfold kernelInit
    simp [← hnraw, not_lt.mpr h0]
  · rw [hnraw]; unfold kernelN; ring
  · rw [hnraw]; unfold kernelN; ring
  · omega
  · intro i hi
    unfold kernelW
    congr 1
    unfold kernelY
    congr 1
    have hle : (i : ℝ) ≤ 2 * (n.toNat : ℝ) := by exact_mod_cast hi
    have hsub : ((2 * n.toNat - i : ℕ) : ℝ) = 2 * (n.toNat : ℝ) - (i : ℝ) := by
      push_cast [Nat.cast_sub hi]
      ring
    rw [hsub]
    have hn' : ((n.toNat : ℝ)) = (n : ℝ) := by exact_mod_cast hcast
    rw [hn']
    ring
  · unfold kernelW
    rw [← Finset.sum_div]
    exact div_self (ne_of_gt (kernelT_pos sigma h0))

/-- Witness for C4 at `sigma = 1`, `nsig = 2`, `ds = 1` (half-width `2`,
five symmetric weights summing to one — the configuration of the end-to-end
test in the specification). -/
theorem kernel_halfwidth_symm_sum_one_witness :
    (0 : ℚ) < 1 ∧ (1 : ℚ) ≤ 2 ∧ (1 : ℤ) ≤ 1 ∧
    (kernelInit 1 2 1 = some (kernelN 1 2 1, kernelW 1 (kernelN 1 2 1)) ∧
     kernelN 1 2 1 = 1 * ⌈(2 : ℚ) * 1 / ((1 : ℤ) : ℚ)⌉ ∧
     (∃ k : ℤ, kernelN 1 2 1 = 1 * k) ∧
     (2 * kernelN 1 2 1 + 1).toNat = 2 * (kernelN 1 2 1).toNat + 1 ∧
     (∀ i : ℕ, i ≤ 2 * (kernelN 1 2 1).toNat →
       kernelW 1 (kernelN 1 2 1) i = kernelW 1 (kernelN 1 2 1) (2 * (kernelN 1 2 1).toNat - i)) ∧
     (∑ i ∈ Finset.range (2 * kernelN 1 2 1 + 1).toNat, kernelW 1 (kernelN 1 2 1) i) = 1) :=
  ⟨by norm_num, by norm_num, by norm_num,
   kernel_halfwidth_symm_sum_one 1 2 1 (by norm_num) (by norm_num) (by norm_num)⟩

/-- The half-width computed by `Kernel(sigma=1, nsig=2)` is `2`, as the
end-to-end test of the specification demands. -/
theorem kernelN_one_two : kernelN 1 2 1 = 2 := by norm_num [kernelN]

/-- The half-width computed at `sigma = -1/2`, `nsig = 1`, `ds = 1` is `0`. -/
theorem kernelN_neg_half : kernelN (-(1/2)) 1 1 = 0 := by norm_num [kernelN]

/-- C8, counterexample.  `Kernel.__init__` performs no validation of `sigma`:
at `sigma = -1/2`, `nsig = 1`, `ds = 1` the computed half-width is
`ceil(-1/2) = 0`, `np.linspace(0, 0, 1)` succeeds, and the constructor
returns a kernel with the one-entry weight vector `[1]` — it does not raise
any `InvalidParameter` error (no such error exists in the code). -/
theorem kernelInit_nonpositive_sigma_cex :
    kernelInit (-(1/2)) 1 1 = some (0, kernelW (-(1/2)) 0) ∧
    kernelW (-(1/2)) 0 0 = 1 ∧
    (2 * (0 : ℤ) + 1).toNat = 1 := by
  have hn : kernelN (-(1/2)) 1 1 = 0 := kernelN_neg_half
  refine ⟨?_, ?_, by decide⟩
  · unfold kernelInit
    rw [hn]
    norm_num
  · unfold kernelW kernelT kernelY
    norm_num

/-- C8, amended.  For every negative `sigma` whose computed half-width
`n = ds * ceil(nsig * sigma / ds)` is nonnegative, `Kernel.__init__` returns a
kernel object (half-width and weight vector) rather than raising: the
constructor contains no check of `sigma` at all. -/
theorem kernelInit_negative_sigma_constructs (sigma nsig : ℚ) (ds : ℤ)
    (_hs : sigma < 0) (h0 : 0 ≤ kernelN sigma nsig ds) :
    kernelInit sigma nsig ds =
      some (kernelN sigma nsig ds, kernelW sigma (kernelN sigma nsig ds)) := by
  unfold kernelInit
  simp [not_lt.mpr h0]

/-- Witness for the amended C8 at `sigma = -1/2`, `nsig = 1`, `ds = 1`. -/
theorem kernelInit_negative_sigma_constructs_witness :
    (-(1/2) : ℚ) < 0 ∧ 0 ≤ kernelN (-(1/2)) 1 1 ∧
    kernelInit (-(1/2)) 1 1 =
      some (kernelN (-(1/2)) 1 1, kernelW (-(1/2)) (kernelN (-(1/2)) 1 1)) :=
  ⟨by norm_num, by rw [kernelN_neg_half],
   kernelInit_negative_sigma_constructs (-(1/2)) 1 1 (by norm_num) (by rw [kernelN_neg_half])⟩

/-! ### Grid (`dens_util.Grid`)

The density array `self.dens` is an n-dimensional NumPy array; it is modelled
as a function from multi-indices (`List ℕ`) to `ℚ`, with the per-axis point
counts carried by the coordinate lists `self.obs` (NumPy broadcasting forces
`len(obs[axis]) == dens.shape[axis]` in every reachable call).  Integration
regions may have infinite endpoints (`[-np.inf, np.inf]` in `marginalize`,
`integrate_lower`, `integrate_upper`), so region bounds are extended
rationals. -/

/-- A region endpoint: a finite float or `±np.inf`. -/
inductive XBound where
  | ninf : XBound
  | fin : ℚ → XBound
  | pinf : XBound
deriving DecidableEq

/-- Source `lo <= x` for a lower region endpoint (NumPy comparison semantics:
`x >= -inf` is true, `x >= +inf` is false). -/
def XBound.leQ : XBound → ℚ → Bool
  | XBound.ninf, _ => true
  | XBound.fin a, x => decide (a ≤ x)
  | XBound.pinf, _ => false

/-- Source `x <= hi` for an upper region endpoint. -/
def XBound.geQ : XBound → ℚ → Bool
  | XBound.pinf, _ => true
  | XBound.fin b, x => decide (x ≤ b)
  | XBound.ninf, _ => false

/-- Source `(obs >= region[0]) & (obs <= region[1])` for a single point. -/
def inRegion (r : XBound × XBound) (x : ℚ) : Bool := r.1.leQ x && r.2.geQ x

/-- The de-normalization correction fitted by `dP_sigma`: a `scipy.interpolate.interp1d`
object with its sample abscissae `x`, ordinates `y` and its evaluation map.
The cubic-spline evaluation map itself is external library behaviour and is
carried abstractly as a function. -/
structure CorrFit where
  x : List ℚ
  y : List ℚ
  eval : ℚ → ℚ

/-- The `Grid` class: density array, coordinate lists, steps, region of
interest, per-dimension kind flags, per-dimension optional corrections,
dimension count and provenance tags. -/
structure Grid where
  dens : List ℕ → ℚ
  obs : List (List ℚ)
  step : List ℚ
  ROI : List (ℚ × ℚ)
  norm : List Bool
  correction : List (Option CorrFit)
  dim : ℕ
  age : ℚ
  Z : ℚ

/-- Source `Grid.__init__`: `dim = len(obs)`; `step[i] = obs[i][1] - obs[i][0]`;
`correction = [None] * len(obs)`. -/
def Grid.init (dens : List ℕ → ℚ) (obs : List (List ℚ)) (ROI : List (ℚ × ℚ))
    (norm : List Bool) (age Z : ℚ) : Grid :=
  { dens := dens
    obs := obs
    step := obs.map (fun o => o.getD 1 0 - o.getD 0 0)
    ROI := ROI
    norm := norm
    correction := List.replicate obs.length none
    dim := obs.length
    age := age
    Z := Z }

/-- Source `Grid.remove_axis`: pops the axis from `obs`, `norm`, `correction`,
deletes the row of `ROI` and the entry of `step`, and decrements `dim`. -/
def Grid.remove_axis (g : Grid) (axis : ℕ) : Grid :=
  { g with
    obs := g.obs.eraseIdx axis
    norm := g.norm.eraseIdx axis
    correction := g.correction.eraseIdx axis
    ROI := g.ROI.eraseIdx axis
    step := g.step.eraseIdx axis
    dim := g.dim - 1 }

/-- Source `Grid.w`: `w = np.zeros_like(obs); w[(obs >= region[0]) & (obs <= region[1])] = 1`
— the weight at array index `i` is `1` exactly when the coordinate lies in the
region, else `0` (a simple rectangular Riemann sum, as the source comment says). -/
def Grid.w (g : Grid) (region : XBound × XBound) (axis : ℕ) : ℕ → ℚ :=
  fun i => if inRegion region ((g.obs.getD axis []).getD i 0) then 1 else 0

/-- Source `Grid.integrate`: `self.dens = np.sum(w * np.moveaxis(dens, axis, -1), axis=-1)`
followed by `self.remove_axis(axis)`. -/
def Grid.integrate (g : Grid) (region : XBound × XBound) (axis : ℕ) : Grid :=
  { g.remove_axis axis with
    dens := fun idx =>
      ((List.range (g.obs.getD axis []).length).map
        (fun i => g.w region axis i * g.dens (idx.insertIdx axis i))).sum }

/-- Source `Grid.integrate_lower`: `self.integrate([-np.inf, self.ROI[axis][0]], axis)`. -/
def Grid.integrate_lower (g : Grid) (axis : ℕ) : Grid :=
  g.integrate (XBound.ninf, XBound.fin (g.ROI.getD axis (0, 0)).1) axis

/-- Source `Grid.integrate_upper`: `self.integrate([self.ROI[axis][1], np.inf], axis)`. -/
def Grid.integrate_upper (g : Grid) (axis : ℕ) : Grid :=
  g.integrate (XBound.fin (g.ROI.getD axis (0, 0)).2, XBound.pinf) axis

/-- Source `Grid.marginalize`: `self.integrate([-np.inf, np.inf], axis)`. -/
def Grid.marginalize (g : Grid) (axis : ℕ) : Grid :=
  g.integrate (XBound.ninf, XBound.pinf) axis

/-- The region used by one step of `integrate_ron`:
`self.ROI[-1]` if `self.norm[-1]` else `[-np.inf, np.inf]`. -/
def ronRegion (g : Grid) : XBound × XBound :=
  if g.norm.getD (g.norm.length - 1) false then
    (XBound.fin (g.ROI.getD (g.ROI.length - 1) (0, 0)).1,
     XBound.fin (g.ROI.getD (g.ROI.length - 1) (0, 0)).2)
  else (XBound.ninf, XBound.pinf)

/-- The loop body of `Grid.integrate_ron` (`while self.dim > 0: self.integrate(region, -1)`),
with the iteration count made explicit as fuel.  The Python axis `-1` is the
last axis, `dim - 1`. -/
def Grid.integrateRonAux : ℕ → Grid → Grid
  | 0, g => g
  | k + 1, g =>
      if g.dim = 0 then g
      else Grid.integrateRonAux k (g.integrate (ronRegion g) (g.dim - 1))

/-- Source `Grid.integrate_ron`: collapses the last axis until `dim == 0`; the loop
runs exactly `dim` times because each `integrate` decrements `dim` by one. -/
def Grid.integrate_ron (g : Grid) : Grid := Grid.integrateRonAux g.dim g

/-- Source `Grid.normalize`: `d = self.copy(); d.integrate_ron(); self.dens /= d.dens`
— the normalizing mass is computed on a copy and only `dens` is rescaled. -/
def Grid.normalize (g : Grid) : Grid :=
  { g with dens := fun idx => g.dens idx / (g.integrate_ron).dens [] }

/-- Source `Grid.density`: `self.dens / np.prod(self.step)`. -/
def Grid.density (g : Grid) : List ℕ → ℚ := fun idx => g.dens idx / g.step.prod

/-- The per-index membership test used by `check_roi`:
`(obs >= self.ROI[axis][0]) & (obs <= self.ROI[axis][1])` at array index `i`. -/
def Grid.inROI (g : Grid) (axis i : ℕ) : Bool :=
  decide ((g.ROI.getD axis (0, 0)).1 ≤ (g.obs.getD axis []).getD i 0) &&
  decide ((g.obs.getD axis []).getD i 0 ≤ (g.ROI.getD axis (0, 0)).2)

/-- Source `Grid.check_roi`: `index = np.nonzero((obs >= ROI[0]) & (obs <= ROI[1]))[0]`;
`return (index.min() >= kernel.n) & (len(obs) - index.max() > kernel.n)`.
`np.min`/`np.max` of an empty index array raise `ValueError`, modelled as `none`. -/
def Grid.check_roi (g : Grid) (axis : ℕ) (kn : ℤ) : Option Bool :=
  match ((List.range (g.obs.getD axis []).length).filter (fun i => g.inROI axis i)).min?,
        ((List.range (g.obs.getD axis []).length).filter (fun i => g.inROI axis i)).max? with
  | some mn, some mx =>
      some (decide (kn ≤ (mn : ℤ) ∧ (((g.obs.getD axis []).length : ℤ) - (mx : ℤ) > kn)))
  | _, _ => none

/-- Elements kept by the Python slice `[::ds]`: indices `0, ds, 2·ds, …` -/
def everyNth (ds : ℕ) (l : List ℚ) : List ℚ :=
  (l.enum.filter (fun p => p.1 % ds == 0)).map Prod.snd

/-- Source `Grid.convolve`: convolve along `axis` (zero padding), drop `kernel.n`
entries at each end, downsample by `ds`; `obs[axis] = obs[axis][n:-n][::ds]`;
`step[axis] *= ds`.  The kernel is passed as its half-width `kn` and weight
list `ky` (the `Kernel` object fields `n` and `y`). -/
def Grid.convolve (g : Grid) (axis : ℕ) (kn : ℕ) (ky : ℕ → ℚ) (ds : ℕ) : Grid :=
  let obsA := g.obs.getD axis []
  { g with
    dens := fun idx =>
      ((List.range (2 * kn + 1)).map
        (fun t => ky t * g.dens (idx.set axis ((idx.getD axis 0) * ds + t)))).sum
    obs := g.obs.set axis (everyNth ds ((obsA.drop kn).take (obsA.length - 2 * kn)))
    step := g.step.set axis (g.step.getD axis 0 * ds) }

/-- The structural invariant of the specification:
`dim == len(obs) == len(step) == len(norm) == len(correction)`. -/
def Inv (g : Grid) : Prop :=
  g.dim = g.obs.length ∧ g.dim = g.step.length ∧
  g.dim = g.norm.length ∧ g.dim = g.correction.length

instance (g : Grid) : Decidable (Inv g) := by unfold Inv; infer_instance

/-- Construction establishes the invariant (given per-axis inputs of matching
lengths, as the provider supplies them). -/
theorem Grid.init_inv (dens : List ℕ → ℚ) (obs : List (List ℚ)) (ROI : List (ℚ × ℚ))
    (norm : List Bool) (age Z : ℚ) (h : norm.length = obs.length) :
    Inv (Grid.init dens obs ROI norm age Z) := by
  unfold Inv Grid.init
  simp [h]

/-- The operation `remove_axis` preserves the invariant and decrements `dim` by exactly one,
removing the same index from `obs`, `step`, `norm`, `correction` and `ROI`. -/
theorem Grid.remove_axis_inv {g : Grid} {axis : ℕ} (hI : Inv g) (h : axis < g.dim) :
    Inv (g.remove_axis axis) ∧ (g.remove_axis axis).dim + 1 = g.dim := by
  obtain ⟨h1, h2, h3, h4⟩ := hI
  have e1 : (g.obs.eraseIdx axis).length + 1 = g.obs.length :=
    List.length_eraseIdx_add_one (by omega)
  have e2 : (g.step.eraseIdx axis).length + 1 = g.step.length :=
    List.length_eraseIdx_add_one (by omega)
  have e3 : (g.norm.eraseIdx axis).length + 1 = g.norm.length :=
    List.length_eraseIdx_add_one (by omega)
  have e4 : (g.correction.eraseIdx axis).length + 1 = g.correction.length :=
    List.length_eraseIdx_add_one (by omega)
  unfold Grid.remove_axis Inv
  refine ⟨⟨?_, ?_, ?_, ?_⟩, ?_⟩ <;> simp only [] <;> omega

/-- The operation `integrate` has the same structural fields as `remove_axis`, so it
preserves the invariant and decrements `dim` by exactly one. -/
theorem Grid.integrate_inv {g : Grid} {axis : ℕ} (region : XBound × XBound)
    (hI : Inv g) (h : axis < g.dim) :
    Inv (g.integrate region axis) ∧ (g.integrate region axis).dim + 1 = g.dim :=
  Grid.remove_axis_inv hI h

/-- Each pass of the `integrate_ron` loop keeps the invariant and drives
`dim` to zero within `dim` iterations. -/
theorem Grid.integrateRonAux_inv :
    ∀ (k : ℕ) (g : Grid), Inv g → g.dim ≤ k →
    Inv (Grid.integrateRonAux k g) ∧ (Grid.integrateRonAux k g).dim = 0 := by
  intro k
  induction k with
  | zero =>
      intro g hI hd
      simp only [Grid.integrateRonAux]
      exact ⟨hI, by omega⟩
  | succ k ih =>
      intro g hI hd
      unfold Grid.integrateRonAux
      by_cases h0 : g.dim = 0
      · simp only [h0, if_pos rfl]
        exact ⟨hI, h0⟩
      · simp only [if_neg h0]
        have hlt : g.dim - 1 < g.dim := by omega
        have h' := Grid.integrate_inv (ronRegion g) hI hlt
        exact ih _ h'.1 (by omega)

/-- The operation `integrate_ron` preserves the invariant and terminates at `dim = 0`. -/
theorem Grid.integrate_ron_inv {g : Grid} (hI : Inv g) :
    Inv g.integrate_ron ∧ g.integrate_ron.dim = 0 :=
  Grid.integrateRonAux_inv g.dim g hI le_rfl

/-- C9.  The structural invariant `dim == len(obs) == len(step) == len(norm)
== len(correction)` holds after construction (for inputs of matching lengths)
and is preserved by every operation; `integrate` (and with it `marginalize`,
`integrate_lower`, `integrate_upper`, which are literal calls to `integrate`)
removes exactly one axis from `obs`, `step`, `norm`, `correction` and `ROI`
together while decreasing `dim` by exactly one; `integrate_ron` drives `dim`
to zero; `normalize` and `convolve` keep `dim` unchanged; no operation
increases `dim`. -/
theorem grid_invariant_preserved :
    (∀ (dens : List ℕ → ℚ) (obs : List (List ℚ)) (ROI : List (ℚ × ℚ))
       (norm : List Bool) (age Z : ℚ), norm.length = obs.length →
       Inv (Grid.init dens obs ROI norm age Z)) ∧
    (∀ (g : Grid) (axis : ℕ), Inv g → axis < g.dim →
       Inv (g.remove_axis axis) ∧ (g.remove_axis axis).dim + 1 = g.dim) ∧
    (∀ (g : Grid) (region : XBound × XBound) (axis : ℕ), Inv g → axis < g.dim →
       Inv (g.integrate region axis) ∧ (g.integrate region axis).dim + 1 = g.dim ∧
       (g.integrate region axis).obs = g.obs.eraseIdx axis ∧
       (g.integrate region axis).step = g.step.eraseIdx axis ∧
       (g.integrate region axis).norm = g.norm.eraseIdx axis ∧
       (g.integrate region axis).correction = g.correction.eraseIdx axis ∧
       (g.integrate region axis).ROI = g.ROI.eraseIdx axis) ∧
    (∀ (g : Grid) (axis : ℕ),
       g.marginalize axis = g.integrate (XBound.ninf, XBound.pinf) axis ∧
       g.integrate_lower axis =
         g.integrate (XBound.ninf, XBound.fin (g.ROI.getD axis (0, 0)).1) axis ∧
       g.integrate_upper axis =
         g.integrate (XBound.fin (g.ROI.getD axis (0, 0)).2, XBound.pinf) axis) ∧
    (∀ g : Grid, Inv g → Inv g.integrate_ron ∧ g.integrate_ron.dim = 0) ∧
    (∀ g : Grid, Inv g → Inv g.normalize ∧ g.normalize.dim = g.dim) ∧
    (∀ (g : Grid) (axis kn : ℕ) (ky : ℕ → ℚ) (ds : ℕ), Inv g →
       Inv (g.convolve axis kn ky ds) ∧ (g.convolve axis kn ky ds).dim = g.dim) := by
  refine ⟨Grid.init_inv, fun g axis hI h => Grid.remove_axis_inv hI h,
          ?_, fun g axis => ⟨rfl, rfl, rfl⟩,
          fun g hI => Grid.integrate_ron_inv hI, ?_, ?_⟩
  · intro g region axis hI h
    obtain ⟨hi, hd⟩ := Grid.integrate_inv region hI h
    exact ⟨hi, hd, rfl, rfl, rfl, rfl, rfl⟩
  · intro g hI
    exact ⟨hI, rfl⟩
  · intro g axis kn ky ds hI
    obtain ⟨h1, h2, h3, h4⟩ := hI
    refine ⟨⟨?_, ?_, ?_, ?_⟩, rfl⟩ <;>
      simp only [Grid.convolve, List.length_set] <;> assumption

/-! ### Concrete grids (the end-to-end configuration of the specification:
1D coordinates `[0,1,2,3,4]`, ROI `[0,4]`, normalized dimension) -/

/-- Density `[0, 1, 2, 1, 0]` as a function of the multi-index. -/
def densEx : List ℕ → ℚ := fun idx => ([0, 1, 2, 1, 0] : List ℚ).getD (idx.getD 0 0) 0

/-- The end-to-end test grid of the specification. -/
def gEx : Grid := Grid.init densEx [[0, 1, 2, 3, 4]] [(0, 4)] [true] 9 0

/-- The same 5-point grid with an all-ones density. -/
def gOnes : Grid := Grid.init (fun _ => 1) [[0, 1, 2, 3, 4]] [(0, 4)] [true] 9 0

/-- A wider 9-point grid whose ROI `[2,6]` leaves a 2-point margin at
each end. -/
def gEx9 : Grid := Grid.init (fun _ => 1) [[0, 1, 2, 3, 4, 5, 6, 7, 8]] [(2, 6)] [true] 9 0

/-- List of the first five naturals, for unfolding `List.range 5`. -/
theorem range_five : List.range 5 = [0, 1, 2, 3, 4] := rfl

/-- C9, witness: the invariant holds on the concrete 5-point grid and is
preserved (with `dim` decremented) by integrating its only axis over the ROI. -/
theorem grid_invariant_preserved_witness :
    Inv gEx ∧ 0 < gEx.dim ∧
    (Inv (gEx.integrate (XBound.fin 0, XBound.fin 4) 0) ∧
     (gEx.integrate (XBound.fin 0, XBound.fin 4) 0).dim + 1 = gEx.dim ∧
     (gEx.integrate (XBound.fin 0, XBound.fin 4) 0).obs = gEx.obs.eraseIdx 0 ∧
     (gEx.integrate (XBound.fin 0, XBound.fin 4) 0).step = gEx.step.eraseIdx 0 ∧
     (gEx.integrate (XBound.fin 0, XBound.fin 4) 0).norm = gEx.norm.eraseIdx 0 ∧
     (gEx.integrate (XBound.fin 0, XBound.fin 4) 0).correction = gEx.correction.eraseIdx 0 ∧
     (gEx.integrate (XBound.fin 0, XBound.fin 4) 0).ROI = gEx.ROI.eraseIdx 0) :=
  ⟨by decide, by decide,
   grid_invariant_preserved.2.2.1 gEx (XBound.fin 0, XBound.fin 4) 0 (by decide) (by decide)⟩

/-! ### C1: the weights of `Grid.integrate` -/

/-- Modelled from the claim wording (NOT from the source): trapezoidal weights
on `[lo,hi]` — weight `1` on interior in-region grid points, `1/2` on the
first and last in-region grid points, `0` outside the region. -/
def specTrapW (obs : List ℚ) (region : XBound × XBound) (i : ℕ) : ℚ :=
  let idxs := (List.range obs.length).filter (fun j => inRegion region (obs.getD j 0))
  if i ∈ idxs then
    (if i = idxs.getD 0 0 ∨ i = idxs.getD (idxs.length - 1) 0 then 1/2 else 1) else 0

/-- C1, counterexample.  On the all-ones 5-point grid, integrating the only
axis over the region `[0, 4]` gives `5` — every in-region point, including
the two boundary points, gets weight `1` (`Grid.w` is a plain indicator, a
rectangular Riemann sum) — while the trapezoidal weights asserted by the
claim would give `4`. -/
theorem integrate_trapezoid_cex :
    ((gOnes.integrate (XBound.fin 0, XBound.fin 4) 0).dens [] = 5) ∧
    (((List.range 5).map
        (fun i => specTrapW [0, 1, 2, 3, 4] (XBound.fin 0, XBound.fin 4) i * 1)).sum = 4) ∧
    ((5 : ℚ) ≠ 4) := by
  refine ⟨?_, ?_, by norm_num⟩
  · norm_num [Grid.integrate, Grid.w, Grid.init, gOnes, inRegion, XBound.leQ, XBound.geQ,
      range_five]
  · norm_num [specTrapW, inRegion, XBound.leQ, XBound.geQ, range_five]

/-- Rectangular-sum bookkeeping: an indicator-weighted sum over all indices
equals the unweighted sum over the indices kept by the indicator. -/
theorem sum_ite_filter (l : List ℕ) (p : ℕ → Bool) (f : ℕ → ℚ) :
    (l.map (fun i => if p i then f i else 0)).sum = ((l.filter p).map f).sum := by
  induction l with
  | nil => rfl
  | cons a t ih => by_cases hp : p a <;> simp [hp, ih]

theorem sum_indicator_filter (l : List ℕ) (p : ℕ → Bool) (f : ℕ → ℚ) :
    (l.map (fun i => (if p i then (1 : ℚ) else 0) * f i)).sum =
    ((l.filter p).map f).sum := by
  simp only [ite_mul, one_mul, zero_mul]
  exact sum_ite_filter l p f

/-- C1, amended.  `integrate(region, axis)` collapses the axis with weight
`1` on every grid point inside `[lo,hi]` (including the boundary-adjacent
ones) and `0` outside — a rectangular, not trapezoidal, Riemann sum — then
removes the axis from every per-dimension list and decrements `dim` by one. -/
theorem integrate_rectangular (g : Grid) (region : XBound × XBound) (axis : ℕ)
    (h : axis < g.dim) :
    (∀ idx, (g.integrate region axis).dens idx =
      (((List.range (g.obs.getD axis []).length).filter
          (fun i => inRegion region ((g.obs.getD axis []).getD i 0))).map
          (fun i => g.dens (idx.insertIdx axis i))).sum) ∧
    (g.integrate region axis).dim + 1 = g.dim ∧
    (g.integrate region axis).obs = g.obs.eraseIdx axis ∧
    (g.integrate region axis).step = g.step.eraseIdx axis ∧
    (g.integrate region axis).norm = g.norm.eraseIdx axis ∧
    (g.integrate region axis).correction = g.correction.eraseIdx axis ∧
    (g.integrate region axis).ROI = g.ROI.eraseIdx axis := by
  refine ⟨?_, show g.dim - 1 + 1 = g.dim by omega, rfl, rfl, rfl, rfl, rfl⟩
  intro idx
  rw [← sum_indicator_filter]
  rfl

/-- Witness for the amended C1 on the all-ones 5-point grid. -/
theorem integrate_rectangular_witness :
    0 < gOnes.dim ∧
    ((∀ idx, (gOnes.integrate (XBound.fin 0, XBound.fin 4) 0).dens idx =
      (((List.range (gOnes.obs.getD 0 []).length).filter
          (fun i => inRegion (XBound.fin 0, XBound.fin 4) ((gOnes.obs.getD 0 []).getD i 0))).map
          (fun i => gOnes.dens (idx.insertIdx 0 i))).sum) ∧
    (gOnes.integrate (XBound.fin 0, XBound.fin 4) 0).dim + 1 = gOnes.dim ∧
    (gOnes.integrate (XBound.fin 0, XBound.fin 4) 0).obs = gOnes.obs.eraseIdx 0 ∧
    (gOnes.integrate (XBound.fin 0, XBound.fin 4) 0).step = gOnes.step.eraseIdx 0 ∧
    (gOnes.integrate (XBound.fin 0, XBound.fin 4) 0).norm = gOnes.norm.eraseIdx 0 ∧
    (gOnes.integrate (XBound.fin 0, XBound.fin 4) 0).correction = gOnes.correction.eraseIdx 0 ∧
    (gOnes.integrate (XBound.fin 0, XBound.fin 4) 0).ROI = gOnes.ROI.eraseIdx 0) :=
  ⟨by decide, integrate_rectangular gOnes (XBound.fin 0, XBound.fin 4) 0 (by decide)⟩

/-- C10.  If no grid coordinate of the axis lies in the region, `integrate`
does not fail: `np.nonzero` returns an empty index set, the weights stay all
zero, and the axis is collapsed to an identically zero density while still
being removed (with `dim` decremented). -/
theorem integrate_empty_region (g : Grid) (region : XBound × XBound) (axis : ℕ)
    (h : axis < g.dim)
    (hempty : ∀ i < (g.obs.getD axis []).length,
        inRegion region ((g.obs.getD axis []).getD i 0) = false) :
    (∀ idx, (g.integrate region axis).dens idx = 0) ∧
    (g.integrate region axis).dim + 1 = g.dim ∧
    (g.integrate region axis).obs = g.obs.eraseIdx axis ∧
    (g.integrate region axis).step = g.step.eraseIdx axis ∧
    (g.integrate region axis).norm = g.norm.eraseIdx axis ∧
    (g.integrate region axis).correction = g.correction.eraseIdx axis ∧
    (g.integrate region axis).ROI = g.ROI.eraseIdx axis := by
  refine ⟨?_, show g.dim - 1 + 1 = g.dim by omega, rfl, rfl, rfl, rfl, rfl⟩
  intro idx
  show (List.map _ (List.range _)).sum = 0
  apply List.sum_eq_zero
  intro q hq
  obtain ⟨i, hi, rfl⟩ := List.mem_map.mp hq
  have hilt := List.mem_range.mp hi
  unfold Grid.w
  rw [hempty i hilt]
  simp

/-- Witness for C10 on the 5-point grid with the empty region `[3, 2]`
(upper limit below the lower limit: no coordinate qualifies). -/
theorem integrate_empty_region_witness :
    0 < gEx.dim ∧
    (∀ i < (gEx.obs.getD 0 []).length,
        inRegion (XBound.fin 3, XBound.fin 2) ((gEx.obs.getD 0 []).getD i 0) = false) ∧
    ((∀ idx, (gEx.integrate (XBound.fin 3, XBound.fin 2) 0).dens idx = 0) ∧
     (gEx.integrate (XBound.fin 3, XBound.fin 2) 0).dim + 1 = gEx.dim ∧
     (gEx.integrate (XBound.fin 3, XBound.fin 2) 0).obs = gEx.obs.eraseIdx 0 ∧
     (gEx.integrate (XBound.fin 3, XBound.fin 2) 0).step = gEx.step.eraseIdx 0 ∧
     (gEx.integrate (XBound.fin 3, XBound.fin 2) 0).norm = gEx.norm.eraseIdx 0 ∧
     (gEx.integrate (XBound.fin 3, XBound.fin 2) 0).correction = gEx.correction.eraseIdx 0 ∧
     (gEx.integrate (XBound.fin 3, XBound.fin 2) 0).ROI = gEx.ROI.eraseIdx 0) :=
  ⟨by decide,
   by
     intro i hi
     have h5 : i < 5 := hi
     interval_cases i <;>
       norm_num [gEx, Grid.init, inRegion, XBound.leQ, XBound.geQ],
   integrate_empty_region gEx (XBound.fin 3, XBound.fin 2) 0 (by decide)
     (by
       intro i hi
       have h5 : i < 5 := hi
       interval_cases i <;>
         norm_num [gEx, Grid.init, inRegion, XBound.leQ, XBound.geQ])⟩

/-! ### C3: normalization -/

/-- A grid with its density rescaled by a constant factor, all other fields
untouched (the effect of `self.dens /= norm` with `c = 1/norm`). -/
def scaleDens (c : ℚ) (g : Grid) : Grid := { g with dens := fun idx => c * g.dens idx }

theorem scaleDens_dim (c : ℚ) (g : Grid) : (scaleDens c g).dim = g.dim := rfl

/-- Integration is linear in the density: integrating a rescaled density
rescales the integral. -/
theorem scaleDens_integrate (c : ℚ) (g : Grid) (region : XBound × XBound) (axis : ℕ) :
    (scaleDens c g).integrate region axis = scaleDens c (g.integrate region axis) := by
  show Grid.mk _ _ _ _ _ _ _ _ _ = Grid.mk _ _ _ _ _ _ _ _ _
  congr 1
  funext idx
  show (List.map (fun i => Grid.w g region axis i * (c * g.dens (idx.insertIdx axis i)))
          (List.range (g.obs.getD axis []).length)).sum =
       c * (List.map (fun i => Grid.w g region axis i * g.dens (idx.insertIdx axis i))
          (List.range (g.obs.getD axis []).length)).sum
  rw [show (fun i => Grid.w g region axis i * (c * g.dens (idx.insertIdx axis i))) =
        (fun i => c * (Grid.w g region axis i * g.dens (idx.insertIdx axis i))) from
        funext fun i => by ring]
  exact List.sum_map_mul_left _ _ _

/-- The `integrate_ron` loop is linear in the density. -/
theorem scaleDens_integrateRonAux :
    ∀ (k : ℕ) (c : ℚ) (g : Grid),
      Grid.integrateRonAux k (scaleDens c g) = scaleDens c (Grid.integrateRonAux k g) := by
  intro k
  induction k with
  | zero => intro c g; rfl
  | succ k ih =>
      intro c g
      unfold Grid.integrateRonAux
      by_cases h0 : g.dim = 0
      · simp [scaleDens_dim, h0]
      · simp only [scaleDens_dim, if_neg h0]
        rw [show ronRegion (scaleDens c g) = ronRegion g from rfl, scaleDens_integrate]
        exact ih c _

/-- The operation `integrate_ron` is linear in the density. -/
theorem scaleDens_integrate_ron (c : ℚ) (g : Grid) :
    (scaleDens c g).integrate_ron = scaleDens c g.integrate_ron := by
  unfold Grid.integrate_ron
  rw [scaleDens_dim]
  exact scaleDens_integrateRonAux g.dim c g

/-- C3.  For a grid whose mass over the normalization region is positive,
`normalize()` followed by `integrate_ron()` yields exactly `1` (the
floating-tolerance statement holds exactly in the rational model); the
normalizing mass is computed on a copy, so `normalize()` changes only `dens`
(dividing it uniformly by that mass) and leaves `obs`, `step`, `ROI`, `norm`,
`correction` and `dim` unchanged. -/
theorem normalize_unit_mass (g : Grid)
    (hM : 0 < (g.integrate_ron).dens []) :
    (g.normalize.integrate_ron).dens [] = 1 ∧
    g.normalize.obs = g.obs ∧ g.normalize.step = g.step ∧
    g.normalize.ROI = g.ROI ∧ g.normalize.norm = g.norm ∧
    g.normalize.correction = g.correction ∧ g.normalize.dim = g.dim ∧
    (∀ idx, g.normalize.dens idx = g.dens idx / (g.integrate_ron).dens []) := by
  have hEq : g.normalize = scaleDens ((g.integrate_ron).dens [])⁻¹ g := by
    show Grid.mk _ _ _ _ _ _ _ _ _ = Grid.mk _ _ _ _ _ _ _ _ _
    congr 1
    funext idx
    exact div_eq_inv_mul _ _
  refine ⟨?_, rfl, rfl, rfl, rfl, rfl, rfl, fun idx => rfl⟩
  rw [hEq, scaleDens_integrate_ron]
  show ((g.integrate_ron).dens [])⁻¹ * (g.integrate_ron).dens [] = 1
  exact inv_mul_cancel₀ (ne_of_gt hM)

/-- Witness for C3 on the end-to-end 5-point grid (total in-ROI mass `4`). -/
theorem normalize_unit_mass_witness :
    0 < (gEx.integrate_ron).dens [] ∧
    ((gEx.normalize.integrate_ron).dens [] = 1 ∧
     gEx.normalize.obs = gEx.obs ∧ gEx.normalize.step = gEx.step ∧
     gEx.normalize.ROI = gEx.ROI ∧ gEx.normalize.norm = gEx.norm ∧
     gEx.normalize.correction = gEx.correction ∧ gEx.normalize.dim = gEx.dim ∧
     (∀ idx, gEx.normalize.dens idx = gEx.dens idx / (gEx.integrate_ron).dens [])) := by
  have hpos : 0 < (gEx.integrate_ron).dens [] := by
    show 0 < (gEx.integrate (ronRegion gEx) 0).dens []
    norm_num [Grid.integrate, Grid.w, gEx, Grid.init, densEx, ronRegion,
      inRegion, XBound.leQ, XBound.geQ, range_five]
  exact ⟨hpos, normalize_unit_mass gEx hpos⟩

/-! ### C6: `check_roi` -/

/-- Specification of `List.min?` on naturals. -/
theorem natList_min?_spec {l : List ℕ} {a : ℕ} (h : l.min? = some a) :
    a ∈ l ∧ ∀ b ∈ l, a ≤ b :=
  (List.min?_eq_some_iff (fun x => Nat.le_refl x) (fun x y => min_choice x y)
    (fun _ _ _ => le_min_iff)).mp h

/-- Specification of `List.max?` on naturals. -/
theorem natList_max?_spec {l : List ℕ} {a : ℕ} (h : l.max? = some a) :
    a ∈ l ∧ ∀ b ∈ l, b ≤ a :=
  (List.max?_eq_some_iff (fun x => Nat.le_refl x) (fun x y => max_choice x y)
    (fun _ _ _ => max_le_iff)).mp h

/-- C6.  `check_roi(axis, kernel)` returns true exactly when every grid point
of the axis lying inside the ROI has at least `kernel.n` grid points on each
side of it within the array bounds (the code checks this at the extreme
in-ROI indices, which is equivalent); and on the 5-point grid `[0,1,2,3,4]`
with ROI `[0,4]` it returns false for the kernel `Kernel(sigma=1, nsig=2)`
of half-width `2`. -/
theorem check_roi_iff :
    (∀ (g : Grid) (axis : ℕ) (kn : ℤ),
      (∃ i, i < (g.obs.getD axis []).length ∧ g.inROI axis i = true) →
      (g.check_roi axis kn = some true ↔
        ∀ i, i < (g.obs.getD axis []).length → g.inROI axis i = true →
          kn ≤ (i : ℤ) ∧ (i : ℤ) + kn < ((g.obs.getD axis []).length : ℤ))) ∧
    gEx.check_roi 0 (kernelN 1 2 1) = some false := by
  constructor
  · intro g axis kn hne
    unfold Grid.check_roi
    set obs := g.obs.getD axis [] with hobs
    set index := (List.range obs.length).filter (fun i => g.inROI axis i) with hidx
    have hmem : ∀ i, i ∈ index ↔ (i < obs.length ∧ g.inROI axis i = true) := by
      intro i
      rw [hidx, List.mem_filter, List.mem_range]
    have hne' : index ≠ [] := by
      obtain ⟨i, hi, hroi⟩ := hne
      intro hnil
      have := (hmem i).mpr ⟨hi, hroi⟩
      rw [hnil] at this
      exact (List.not_mem_nil i) this
    cases hmin : index.min? with
    | none => exact absurd (List.min?_eq_none_iff.mp hmin) hne'
    | some mn =>
      cases hmax : index.max? with
      | none => exact absurd (List.max?_eq_none_iff.mp hmax) hne'
      | some mx =>
        obtain ⟨hmnMem, hmnLe⟩ := natList_min?_spec hmin
        obtain ⟨hmxMem, hmxLe⟩ := natList_max?_spec hmax
        simp only [Option.some.injEq, decide_eq_true_eq]
        constructor
        · intro hP i hilen hiroi
          obtain ⟨hknmn, hmxlen⟩ := hP
          have hiIdx := (hmem i).mpr ⟨hilen, hiroi⟩
          have h1 := hmnLe i hiIdx
          have h2 := hmxLe i hiIdx
          omega
        · intro hQ
          have hmn' := (hmem mn).mp hmnMem
          have hmx' := (hmem mx).mp hmxMem
          have h1 := hQ mn hmn'.1 hmn'.2
          have h2 := hQ mx hmx'.1 hmx'.2
          omega
  · rw [kernelN_one_two]
    have hfil : (List.range ((gEx.obs.getD 0 []).length)).filter (fun i => gEx.inROI 0 i) =
        [0, 1, 2, 3, 4] := by
      show (List.range 5).filter (fun i => gEx.inROI 0 i) = [0, 1, 2, 3, 4]
      rw [range_five]
      norm_num [Grid.inROI, gEx, Grid.init, List.filter]
    unfold Grid.check_roi
    rw [hfil]
    rfl

/-- Witness for the general part of C6 on the 9-point grid with ROI `[2,6]`
(every in-ROI point keeps a margin of at least two points; `check_roi`
returns true for half-width `2`). -/
theorem check_roi_iff_witness :
    (∃ i, i < (gEx9.obs.getD 0 []).length ∧ gEx9.inROI 0 i = true) ∧
    (gEx9.check_roi 0 2 = some true ↔
      ∀ i, i < (gEx9.obs.getD 0 []).length → gEx9.inROI 0 i = true →
        (2 : ℤ) ≤ (i : ℤ) ∧ (i : ℤ) + 2 < ((gEx9.obs.getD 0 []).length : ℤ)) := by
  have hne : (∃ i, i < (gEx9.obs.getD 0 []).length ∧ gEx9.inROI 0 i = true) := by
    refine ⟨2, ?_, ?_⟩
    · show 2 < 9
      norm_num
    · norm_num [Grid.inROI, gEx9, Grid.init]
  exact ⟨hne, check_roi_iff.1 gEx9 0 2 hne⟩

/-! ### C7: the profile-likelihood maximizer in `q` (`calc_cluster.py`)

`def dlogL(x, qi): q = 1-eps if x==1 else (eps if x==0 else x); return np.sum(1/(q-qi))`
and the branch
`if dlogL(0)<=0 and dlogL(1)<=0: qmax=0`
`elif dlogL(0)>=0 and dlogL(1)>=0: qmax=1`
`else: qmax = root_scalar(dlogL, bracket=[0,1]).root`. -/

/-- The function `dlogL(x, qi)`, with the machine epsilon passed as a parameter `eps`. -/
def dlogL (eps : ℚ) (qi : List ℚ) (x : ℚ) : ℚ :=
  (qi.map (fun t => 1 / ((if x = 1 then 1 - eps else if x = 0 then eps else x) - t))).sum

/-- The three outcomes of the `qmax` branch. -/
inductive QmaxSel where
  | zero : QmaxSel
  | one : QmaxSel
  | rootfind : QmaxSel
deriving DecidableEq

/-- The branch selecting `qmax`: `0`, `1`, or a bracketed root-find on `[0,1]`. -/
def qmaxSel (eps : ℚ) (qi : List ℚ) : QmaxSel :=
  if dlogL eps qi 0 ≤ 0 ∧ dlogL eps qi 1 ≤ 0 then QmaxSel.zero
  else if 0 ≤ dlogL eps qi 0 ∧ 0 ≤ dlogL eps qi 1 then QmaxSel.one
  else QmaxSel.rootfind

/-- A single likelihood-root term of `dlogL` is strictly larger at `q = eps`
than at `q = 1 - eps` when the root lies outside `[0, 1)`. -/
theorem dlogL_term_lt (eps t : ℚ) (h0 : 0 < eps) (h1 : eps < 1/2)
    (ht : t < 0 ∨ 1 ≤ t) : 1 / (1 - eps - t) < 1 / (eps - t) := by
  rcases ht with ht | ht
  · exact one_div_lt_one_div_of_lt (by linarith) (by linarith)
  · exact one_div_lt_one_div_of_neg_of_lt (by linarith) (by linarith)

/-- Sum form of `dlogL_term_lt`, non-strict, over any root list. -/
theorem dlogL_sum_le (eps : ℚ) (h0 : 0 < eps) (h1 : eps < 1/2) :
    ∀ (qi : List ℚ), (∀ t ∈ qi, t < 0 ∨ 1 ≤ t) →
      (qi.map (fun t => 1 / ((1 - eps) - t))).sum ≤
      (qi.map (fun t => 1 / (eps - t))).sum := by
  intro qi
  induction qi with
  | nil => intro _; simp
  | cons t rest ih =>
      intro hq
      simp only [List.map_cons, List.sum_cons]
      have hhead := dlogL_term_lt eps t h0 h1 (hq t (List.mem_cons_self t rest))
      have htail := ih (fun u hu => hq u (List.mem_cons_of_mem t hu))
      have : 1 - eps - t = (1 - eps) - t := by ring
      rw [this] at hhead
      linarith

/-- For a nonempty root list with all roots outside `[0, 1)`, `dlogL` is
strictly smaller at `x = 1` than at `x = 0`. -/
theorem dlogL_one_lt_zero (eps : ℚ) (qi : List ℚ) (h0 : 0 < eps) (h1 : eps < 1/2)
    (hne : qi ≠ []) (hq : ∀ t ∈ qi, t < 0 ∨ 1 ≤ t) :
    dlogL eps qi 1 < dlogL eps qi 0 := by
  unfold dlogL
  have e1 : ((if (1 : ℚ) = 1 then 1 - eps else if (1 : ℚ) = 0 then eps else 1)) = 1 - eps := by
    norm_num
  have e0 : ((if (0 : ℚ) = 1 then 1 - eps else if (0 : ℚ) = 0 then eps else 0)) = eps := by
    norm_num
  rw [e1, e0]
  cases qi with
  | nil => exact absurd rfl hne
  | cons t rest =>
      simp only [List.map_cons, List.sum_cons]
      have hhead := dlogL_term_lt eps t h0 h1 (hq t (List.mem_cons_self t rest))
      have htail := dlogL_sum_le eps h0 h1 rest (fun u hu => hq u (List.mem_cons_of_mem t hu))
      have : 1 - eps - t = (1 - eps) - t := by ring
      rw [this] at hhead
      linarith

/-- C7.  The `qmax` branch selects `0` exactly when the log-likelihood
derivative is `≤ 0` at both `q = 0` and `q = 1`, selects `1` exactly when it
is `≥ 0` at both, and in the remaining (root-finding) case the derivative is
strictly positive at `0` and strictly negative at `1` — so the bracket
`[0, 1]` handed to `root_scalar` is always valid.  The hypotheses record the
construction of the roots `q_i = 1/(1 - r_i)` with `r_i = f_i/back_i ≥ 0`:
every root lies outside `[0, 1)`. -/
theorem qmax_case_analysis (eps : ℚ) (qi : List ℚ)
    (h0 : 0 < eps) (h1 : eps < 1/2) (hne : qi ≠ [])
    (hq : ∀ t ∈ qi, t < 0 ∨ 1 ≤ t) :
    (qmaxSel eps qi = QmaxSel.zero ↔ dlogL eps qi 0 ≤ 0 ∧ dlogL eps qi 1 ≤ 0) ∧
    (qmaxSel eps qi = QmaxSel.one ↔ 0 ≤ dlogL eps qi 0 ∧ 0 ≤ dlogL eps qi 1) ∧
    (qmaxSel eps qi = QmaxSel.rootfind →
      0 < dlogL eps qi 0 ∧ dlogL eps qi 1 < 0) := by
  have hlt := dlogL_one_lt_zero eps qi h0 h1 hne hq
  unfold qmaxSel
  by_cases hA : dlogL eps qi 0 ≤ 0 ∧ dlogL eps qi 1 ≤ 0
  · rw [if_pos hA]
    refine ⟨⟨fun _ => hA, fun _ => rfl⟩, ⟨fun h => absurd h (by simp), fun hB => ?_⟩,
            fun h => absurd h (by simp)⟩
    exfalso
    obtain ⟨hA0, hA1⟩ := hA
    obtain ⟨hB0, hB1⟩ := hB
    linarith
  · rw [if_neg hA]
    by_cases hB : 0 ≤ dlogL eps qi 0 ∧ 0 ≤ dlogL eps qi 1
    · rw [if_pos hB]
      exact ⟨⟨fun h => absurd h (by simp), fun h => absurd h hA⟩,
             ⟨fun _ => hB, fun _ => rfl⟩,
             fun h => absurd h (by simp)⟩
    · rw [if_neg hB]
      refine ⟨⟨fun h => absurd h (by simp), fun h => absurd h hA⟩,
              ⟨fun h => absurd h (by simp), fun h => absurd h hB⟩, fun _ => ?_⟩
      push_neg at hA hB
      constructor
      · by_contra hc
        push_neg at hc
        have hd1 : dlogL eps qi 1 < 0 := by linarith
        have := hA (by linarith)
        linarith
      · by_contra hc
        push_neg at hc
        have := hB (by linarith)
        linarith

/-- Witness for C7 at `eps = 1/4` with roots `[2, 3]` (both `≥ 1`). -/
theorem qmax_case_analysis_witness :
    (0 : ℚ) < 1/4 ∧ (1/4 : ℚ) < 1/2 ∧ ([2, 3] : List ℚ) ≠ [] ∧
    (∀ t ∈ ([2, 3] : List ℚ), t < 0 ∨ 1 ≤ t) ∧
    ((qmaxSel (1/4) [2, 3] = QmaxSel.zero ↔
        dlogL (1/4) [2, 3] 0 ≤ 0 ∧ dlogL (1/4) [2, 3] 1 ≤ 0) ∧
     (qmaxSel (1/4) [2, 3] = QmaxSel.one ↔
        0 ≤ dlogL (1/4) [2, 3] 0 ∧ 0 ≤ dlogL (1/4) [2, 3] 1) ∧
     (qmaxSel (1/4) [2, 3] = QmaxSel.rootfind →
        0 < dlogL (1/4) [2, 3] 0 ∧ dlogL (1/4) [2, 3] 1 < 0)) :=
  ⟨by norm_num, by norm_num, by simp,
   by intro t ht; simp only [List.mem_cons, List.mem_singleton] at ht
      rcases ht with rfl | rfl | h
      · norm_num
      · norm_num
      · exact absurd h (List.not_mem_nil t),
   qmax_case_analysis (1/4) [2, 3] (by norm_num) (by norm_num) (by simp)
     (by intro t ht; simp only [List.mem_cons, List.mem_singleton] at ht
         rcases ht with rfl | rfl | h
         · norm_num
         · norm_num
         · exact absurd h (List.not_mem_nil t))⟩

/-- The likelihood roots are `q_i = 1/(1 - r_i)` with an odds ratio
`r_i = f_i/back_i ≥ 0`; whenever `r_i ≠ 1` the root lies outside `[0, 1)`,
which is the hypothesis of the case analysis. -/
theorem likelihood_root_range (r : ℚ) (hr : 0 ≤ r) (hne : r ≠ 1) :
    1 / (1 - r) < 0 ∨ 1 ≤ 1 / (1 - r) := by
  rcases lt_or_gt_of_ne hne with h | h
  · right
    rw [le_div_iff₀ (by linarith)]
    linarith
  · left
    apply div_neg_of_pos_of_neg
    · norm_num
    · linarith

/-! ### C2: per-star kernel support (`calc_cluster.py`, kernel/slice loop and
`dens = np.sum(kernels[i] * density1.dens[slices[i]])`)

The wide-kernel path for one observable dimension: start and stop indices
`obs1 = floor(x - nsig*sigma)`, `obs2 = ceil(x + nsig*sigma + 1)`, the kernel
sampled on `np.arange(obs1, obs2)` and renormalized, and the density sliced
with Python slice semantics (out-of-range slices CLIP, they never raise).
The only error the weighted sum can produce is the NumPy broadcast
shape-mismatch `ValueError`; `ConvolutionException` is defined in
`dens_util.py` but never raised anywhere in the repository. -/

/-- The failure modes of the per-star weighted sum: NumPy broadcast shape
mismatch, or the `ConvolutionException` the specification asserts (present in
the model so that its absence can be stated). -/
inductive EvalErr where
  | broadcastMismatch : EvalErr
  | convolutionException : EvalErr
deriving DecidableEq

/-- Python slice endpoint for `a[start:stop]` on length `L`: a negative index
counts from the end, then the result is clamped into `[0, L]`. -/
def pySliceIdx (L : ℕ) (a : ℤ) : ℕ := min ((if a < 0 then a + L else a).toNat) L

/-- Source `dens[x1:x2]` with Python/NumPy slice semantics — clipping, never an
out-of-bounds error. -/
def npSlice (l : List ℝ) (a b : ℤ) : List ℝ :=
  (l.drop (pySliceIdx l.length a)).take (pySliceIdx l.length b - pySliceIdx l.length a)

/-- Source `np.sum(kernel * dens)` with NumPy broadcasting: equal lengths multiply
elementwise; a length-one operand broadcasts; any other length mismatch is a
`ValueError` (shape mismatch). -/
def broadcastMulSum (k d : List ℝ) : Except EvalErr ℝ :=
  if k.length = d.length then Except.ok (List.zipWith (fun a b => a * b) k d).sum
  else if d.length = 1 then Except.ok (k.sum * d.headI)
  else if k.length = 1 then Except.ok (k.headI * d.sum)
  else Except.error EvalErr.broadcastMismatch

/-- Source `obs1 = np.floor(obs - nsig * sigma)`: start index of the wide kernel. -/
def kStart (x s nsig : ℚ) : ℤ := ⌊x - nsig * s⌋

/-- Source `obs2 = np.ceil(obs + nsig * sigma + 1)`: stop index of the wide kernel. -/
def kStop (x s nsig : ℚ) : ℤ := ⌈x + nsig * s + 1⌉

/-- The wide kernel `np.exp(-(np.arange(x1, x2) - x)**2 / (2*s**2))`. -/
noncomputable def wideKernel (x s : ℚ) (x1 x2 : ℤ) : List ℝ :=
  (List.range (x2 - x1).toNat).map
    (fun (j : ℕ) => Real.exp (-((x1 : ℝ) + (j : ℝ) - (x : ℝ))^2 / (2 * (s : ℝ)^2)))

/-- The kernel after the final renormalization `kernel /= np.sum(kernel)`. -/
noncomputable def wideKernelNorm (x s : ℚ) (x1 x2 : ℤ) : List ℝ :=
  (wideKernel x s x1 x2).map (fun v => v / (wideKernel x s x1 x2).sum)

/-- Per-star, single-observable kernel integration of `calc_cluster.py`:
`np.sum(kernels[i] * density1.dens[slices[i]])` along the wide-kernel path. -/
noncomputable def starKernelSum (dens : List ℝ) (x s nsig : ℚ) : Except EvalErr ℝ :=
  broadcastMulSum (wideKernelNorm x s (kStart x s nsig) (kStop x s nsig))
    (npSlice dens (kStart x s nsig) (kStop x s nsig))

/-- C2, counterexample.  On a 5-point density with a star at `x = 2`,
residual sigma `s = 2` (pixels) and `nsig = 3`, the kernel support
`[-4, 9)` extends past both array bounds; the evaluation does NOT fail with
`ConvolutionException` — the slice is clipped to 4 entries against a
13-entry kernel and the failure is the NumPy broadcast shape mismatch. -/
theorem star_kernel_support_cex :
    (kStart 2 2 3 < 0 ∧ (5 : ℤ) < kStop 2 2 3) ∧
    starKernelSum [1, 1, 1, 1, 1] 2 2 3 = Except.error EvalErr.broadcastMismatch ∧
    (Except.error EvalErr.broadcastMismatch ≠
      (Except.error EvalErr.convolutionException : Except EvalErr ℝ)) := by
  have h1 : kStart 2 2 3 = -4 := by norm_num [kStart]
  have h2 : kStop 2 2 3 = 9 := by norm_num [kStop]
  refine ⟨⟨by rw [h1]; norm_num, by rw [h2]; norm_num⟩, ?_, by simp⟩
  unfold starKernelSum
  rw [h1, h2]
  have hk : (wideKernelNorm 2 2 (-4) 9).length = 13 := by
    unfold wideKernelNorm wideKernel
    rw [List.length_map, List.length_map, List.length_range]
    rfl
  have hd : (npSlice [1, 1, 1, 1, 1] (-4) 9).length = 4 := by
    norm_num [npSlice, pySliceIdx]
  unfold broadcastMulSum
  rw [hk, hd]
  norm_num

/-- C2, amended.  The per-star kernel integration can never fail with
`ConvolutionException` (the exception is defined but never raised; slices
that exceed the array bounds are clipped by NumPy indexing and the misfit
surfaces, if at all, as a broadcast shape mismatch); conversely, whenever the
kernel support does fit inside the array bounds, the weighted sum is
computed. -/
theorem star_kernel_never_convolution_exception :
    (∀ (dens : List ℝ) (x s nsig : ℚ),
       starKernelSum dens x s nsig ≠ Except.error EvalErr.convolutionException) ∧
    (∀ (dens : List ℝ) (x s nsig : ℚ),
       0 ≤ kStart x s nsig → kStop x s nsig ≤ (dens.length : ℤ) →
       0 ≤ s → 0 ≤ nsig →
       ∃ v, starKernelSum dens x s nsig = Except.ok v) := by
  constructor
  · intro dens x s nsig
    unfold starKernelSum broadcastMulSum
    split_ifs <;> simp
  · intro dens x s nsig hlo hhi hs hnsig
    have hns : 0 ≤ nsig * s := mul_nonneg hnsig hs
    have hx12 : kStart x s nsig ≤ kStop x s nsig := by
      have hfl : kStart x s nsig ≤ ⌊x + nsig * s + 1⌋ :=
        Int.floor_le_floor (by linarith)
      have hfc : (⌊x + nsig * s + 1⌋ : ℤ) ≤ kStop x s nsig := Int.floor_le_ceil _
      omega
    have hL : (0 : ℤ) ≤ (dens.length : ℤ) := by positivity
    have e1 : pySliceIdx dens.length (kStart x s nsig) = (kStart x s nsig).toNat := by
      unfold pySliceIdx
      rw [if_neg (by omega), min_eq_left (by omega)]
    have e2 : pySliceIdx dens.length (kStop x s nsig) = (kStop x s nsig).toNat := by
      unfold pySliceIdx
      rw [if_neg (by omega), min_eq_left (by omega)]
    have hslice : (npSlice dens (kStart x s nsig) (kStop x s nsig)).length =
        (kStop x s nsig - kStart x s nsig).toNat := by
      unfold npSlice
      rw [e1, e2, List.length_take, List.length_drop]
      omega
    have hkern : (wideKernelNorm x s (kStart x s nsig) (kStop x s nsig)).length =
        (kStop x s nsig - kStart x s nsig).toNat := by
      unfold wideKernelNorm wideKernel
      rw [List.length_map, List.length_map, List.length_range]
    have hok : starKernelSum dens x s nsig =
        Except.ok (List.zipWith (fun a b => a * b)
          (wideKernelNorm x s (kStart x s nsig) (kStop x s nsig))
          (npSlice dens (kStart x s nsig) (kStop x s nsig))).sum := by
      unfold starKernelSum broadcastMulSum
      rw [if_pos (by rw [hslice, hkern])]
    exact ⟨_, hok⟩

/-- Witness for the fitting-support branch of C2 at a star whose kernel
support `[1, 4)` lies inside the 5-point array. -/
theorem star_kernel_never_convolution_exception_witness :
    0 ≤ kStart 2 (1/2) 1 ∧ kStop 2 (1/2) 1 ≤ (([1, 1, 1, 1, 1] : List ℝ).length : ℤ) ∧
    (0 : ℚ) ≤ 1/2 ∧ (0 : ℚ) ≤ 1 ∧
    (∃ v, starKernelSum [1, 1, 1, 1, 1] 2 (1/2) 1 = Except.ok v) :=
  ⟨by norm_num [kStart], by norm_num [kStop, Int.ceil_le], by norm_num, by norm_num,
   star_kernel_never_convolution_exception.2 [1, 1, 1, 1, 1] 2 (1/2) 1
     (by norm_num [kStart]) (by norm_num [kStop, Int.ceil_le]) (by norm_num) (by norm_num)⟩

/-! ### C5: the per-star normalization-correction evaluation
(`calc_cluster.py`, lines 125–139)

`dP_spline = density1.correction[j]`;
`if (s <= dP_spline.x[j]): dp = float(dP_spline(s))` — the condition indexes
the knot array with `j`, the DIMENSION loop index, not with `-1` — `else`
linear extrapolation through the last two fitted samples; then
`norm *= 1 / (1 + dp)`. -/

/-- The per-dimension correction evaluation exactly as coded: the
within-domain test compares `s` with `x[j]` where `j` is the dimension index. -/
def dpCode (sp : CorrFit) (j : ℕ) (s : ℚ) : ℚ :=
  if s ≤ sp.x.getD j 0 then sp.eval s
  else
    sp.y.getD (sp.y.length - 1) 0 +
      (s - sp.x.getD (sp.x.length - 1) 0) *
        (sp.y.getD (sp.y.length - 2) 0 - sp.y.getD (sp.y.length - 1) 0) /
        (sp.x.getD (sp.x.length - 2) 0 - sp.x.getD (sp.x.length - 1) 0)

/-- Modelled from the spec: the claimed evaluation rule — use the fitted
spline when `s` is at or below the largest fitted sample `x[-1]`, and only
beyond the fit domain extrapolate linearly through the last two samples. -/
def dpSpec (sp : CorrFit) (s : ℚ) : ℚ :=
  if s ≤ sp.x.getD (sp.x.length - 1) 0 then sp.eval s
  else
    sp.y.getD (sp.y.length - 1) 0 +
      (s - sp.x.getD (sp.x.length - 1) 0) *
        (sp.y.getD (sp.y.length - 2) 0 - sp.y.getD (sp.y.length - 1) 0) /
        (sp.x.getD (sp.x.length - 2) 0 - sp.x.getD (sp.x.length - 1) 0)

/-- The fold of the correction into the running factor:
`norm *= 1 / (1 + dp)` when the spline exists, else no change. -/
def corrFactorStep (sp : Option CorrFit) (j : ℕ) (s factor : ℚ) : ℚ :=
  match sp with
  | none => factor
  | some sp => factor * (1 / (1 + dpCode sp j s))

/-- A concrete fitted correction: samples `(1,0), (2,0), (3,0), (4,1)` with a
(stand-in) interpolant agreeing with the samples. -/
def spEx : CorrFit :=
  { x := [1, 2, 3, 4]
    y := [0, 0, 0, 1]
    eval := fun t => if t ≤ 3 then 0 else t - 3 }

/-- C5, the defect at a failing input.  For the fitted correction `spEx`, at
dimension index `j = 0` and residual sigma `s = 5/2` — inside the fit domain,
`5/2 ≤ x[-1] = 4` — the code compares `s` with `x[j] = x[0] = 1` and takes
the extrapolation branch, returning `-1/2`, while the claimed (and
comment-documented) rule evaluates the interpolant, returning `0`; the factor
folded into the running correction is `1/(1 + dp)`. -/
theorem correction_domain_bug :
    dpCode spEx 0 (5/2) = -(1/2) ∧
    ((5 : ℚ)/2 ≤ spEx.x.getD (spEx.x.length - 1) 0) ∧
    dpSpec spEx (5/2) = 0 ∧
    dpCode spEx 0 (5/2) ≠ dpSpec spEx (5/2) ∧
    (∀ (sp : CorrFit) (j : ℕ) (s factor : ℚ),
      corrFactorStep (some sp) j s factor = factor * (1 / (1 + dpCode sp j s))) := by
  have h1 : dpCode spEx 0 (5/2) = -(1/2) := by
    norm_num [dpCode, spEx]
  have h2 : dpSpec spEx (5/2) = 0 := by
    norm_num [dpSpec, spEx]
  exact ⟨h1, by norm_num [spEx], h2, by rw [h1, h2]; norm_num,
         fun sp j s factor => rfl⟩

end NGC1846
